/-
Verification development for the gha-runner-autoscaler-controller
capacity→allocation reconciliation pipeline.

The Go sources are shallowly embedded: Go `int64` becomes `Int` (no
overflow occurs on the verified paths), Go truncating integer division
(`/` on int64) becomes `Int.tdiv`, Go maps of annotations/labels become
association lists, and fallible functions return `Option`/`Except`.
`sort.Slice` with the strict comparator `(priority DESC, name ASC)` is
embedded as an insertion sort using that comparator; for inputs with
distinct (priority, name) keys the sorted result is uniquely determined,
so this is a faithful rendering of the Go sort.
-/
import Mathlib

namespace GhaAutoscaler

/-! ## Strings: Go byte-wise `<` on strings, embedded on character lists -/

/-- Go string comparison `a < b` (lexicographic), on the character lists
of the two strings.  Defined directly so that it evaluates by `decide`. -/
def goStrLtChars : List Char → List Char → Bool
  | [], [] => false
  | [], _ :: _ => true
  | _ :: _, [] => false
  | a :: as, b :: bs =>
    if a < b then true
    else if b < a then false
    else goStrLtChars as bs

/-- Go `a < b` on strings. -/
def goStrLt (a b : String) : Bool :=
  goStrLtChars a.data b.data

/-! ## Data model (runnerset_resources.go) -/

/-- `RunnerSetResources` from the controller package: normalized per-set
resource requirements. -/
structure RunnerSetResources where
  name : String
  cpuMillis : Int
  memoryBytes : Int
  priority : Int
  minRunners : Int
  currentMax : Int
  configuredMax : Int
deriving Repr, DecidableEq

/-- `RunnerSetAllocation`: the calculated maxRunners for a runner set. -/
structure RunnerSetAllocation where
  name : String
  maxRunners : Int
deriving Repr, DecidableEq

/-! ## Allocator (allocator.go) -/

/-- `calculateMaxRunners`: how many runners of a given spec fit in the
available capacity.  Go `/` on int64 truncates toward zero (`Int.tdiv`). -/
def calculateMaxRunners (rs : RunnerSetResources)
    (availableCPUMillis availableMemoryBytes : Int) : Int :=
  if rs.cpuMillis ≤ 0 ∨ rs.memoryBytes ≤ 0 then 0
  else
    let maxByCPU := Int.tdiv availableCPUMillis rs.cpuMillis
    let maxByMemory := Int.tdiv availableMemoryBytes rs.memoryBytes
    max 0 (min maxByMemory maxByCPU)

/-- The comparator passed to `sort.Slice` in `Allocate` and in the
fair-share redistribution pass: higher priority first, then name
ascending for deterministic tie-breaks. -/
def allocLess (a b : RunnerSetResources) : Bool :=
  if a.priority ≠ b.priority then decide (a.priority > b.priority)
  else goStrLt a.name b.name

/-- Insertion step of the embedded sort: place `a` before the first
element not strictly less than it. -/
def insertBy (lt : α → α → Bool) (a : α) : List α → List α
  | [] => [a]
  | b :: l => if lt b a then b :: insertBy lt a l else a :: b :: l

/-- The embedded sort (see header comment: stands in for `sort.Slice`
with a strict comparator). -/
def sortBy (lt : α → α → Bool) : List α → List α
  | [] => []
  | a :: l => insertBy lt a (sortBy lt l)

/-- The sorted copy of the runner-set list built at the top of `Allocate`. -/
def sortRunnerSets (runnerSets : List RunnerSetResources) : List RunnerSetResources :=
  sortBy allocLess runnerSets

/-- One iteration of `Allocate`'s loop body (allocator.go lines 53-65):
fit, then minimum-runners promotion, then the configured-max cap. -/
def allocStep (rs : RunnerSetResources) (remainingCPU remainingMemory : Int) : Int :=
  let fitted := calculateMaxRunners rs remainingCPU remainingMemory
  let promoted := if rs.minRunners > 0 ∧ fitted < rs.minRunners then rs.minRunners else fitted
  if rs.configuredMax > 0 ∧ promoted > rs.configuredMax then rs.configuredMax else promoted

/-- The body of `Allocate`'s loop over the priority-sorted runner sets,
carrying the remaining capacity (allocator.go lines 53-89): per-set
`allocStep`, then subtract the allocated resources from the remaining
capacity. -/
def allocateLoop : List RunnerSetResources → Int → Int → List RunnerSetAllocation
  | [], _, _ => []
  | rs :: rest, remainingCPU, remainingMemory =>
    let capped := allocStep rs remainingCPU remainingMemory
    ⟨rs.name, capped⟩ ::
      allocateLoop rest (remainingCPU - capped * rs.cpuMillis)
        (remainingMemory - capped * rs.memoryBytes)

/-- `Allocate`: strict-priority allocation. -/
def Allocate (runnerSets : List RunnerSetResources)
    (availableCPUMillis availableMemoryBytes : Int) : List RunnerSetAllocation :=
  allocateLoop (sortRunnerSets runnerSets) availableCPUMillis availableMemoryBytes

/-! ## Fair-share allocator (`AllocateFairShare`, allocator.go lines 97-288) -/

/-- The weight snippet repeated at allocator.go lines 106-109 and
133-136: only a priority of exactly 0 is replaced by 1. -/
def effectiveWeight (p : Int) : Int :=
  if p = 0 then 1 else p

/-- `totalPriorityWeight`: sum of the effective weights of all runner
sets (allocator.go lines 103-111). -/
def totalPriorityWeight (runnerSets : List RunnerSetResources) : Int :=
  runnerSets.foldl (fun acc rs => acc + effectiveWeight rs.priority) 0

/-- The local `allocation` record of `AllocateFairShare`. -/
structure FairAllocation where
  runnerSet : RunnerSetResources
  maxRunners : Int
  allocatedCPU : Int
  allocatedMemory : Int
  cappedByMax : Bool
deriving Repr, DecidableEq

/-- First pass of `AllocateFairShare` for one runner set (allocator.go
lines 132-177): proportional share budgets, fit, configured-max cap. -/
def firstPassAlloc (w cpuAvail memAvail : Int) (rs : RunnerSetResources) : FairAllocation :=
  let priority := effectiveWeight rs.priority
  let cpuShare := Int.tdiv (cpuAvail * priority) w
  let memoryShare := Int.tdiv (memAvail * priority) w
  let fitted := calculateMaxRunners rs cpuShare memoryShare
  let cappedByMax := rs.configuredMax > 0 ∧ fitted > rs.configuredMax
  let maxRunners := if rs.configuredMax > 0 ∧ fitted > rs.configuredMax then rs.configuredMax else fitted
  { runnerSet := rs
    maxRunners := maxRunners
    allocatedCPU := maxRunners * rs.cpuMillis
    allocatedMemory := maxRunners * rs.memoryBytes
    cappedByMax := decide cappedByMax }

/-- Minimum-runners enforcement pass of `AllocateFairShare`
(allocator.go lines 181-204). -/
def enforceMinimum (a : FairAllocation) : FairAllocation :=
  let rs := a.runnerSet
  if rs.minRunners > 0 ∧ a.maxRunners < rs.minRunners then
    let additional := rs.minRunners - a.maxRunners
    { a with
      maxRunners := rs.minRunners
      allocatedCPU := a.allocatedCPU + additional * rs.cpuMillis
      allocatedMemory := a.allocatedMemory + additional * rs.memoryBytes }
  else a

/-- The write-back at allocator.go lines 268-273: replace the first
allocation whose runner set has the given name. -/
def updateFirstByName (name : String) (a : FairAllocation) :
    List FairAllocation → List FairAllocation
  | [] => []
  | b :: l =>
    if b.runnerSet.name = name then a :: l
    else b :: updateFirstByName name a l

/-- Redistribution pass of `AllocateFairShare` (allocator.go lines
227-275): walk the priority-sorted allocations, give each uncapped set
as many additional runners as fit in the remaining capacity (bounded by
its configured max), and write the update back into the original
allocation list. -/
def redistributeLoop :
    List FairAllocation → Int → Int → List FairAllocation → List FairAllocation
  | [], _, _, allocations => allocations
  | a :: rest, remainingCPU, remainingMemory, allocations =>
    let rs := a.runnerSet
    if rs.configuredMax > 0 ∧ a.maxRunners ≥ rs.configuredMax then
      redistributeLoop rest remainingCPU remainingMemory allocations
    else
      let additionalRunners := calculateMaxRunners rs remainingCPU remainingMemory
      if additionalRunners = 0 then
        redistributeLoop rest remainingCPU remainingMemory allocations
      else
        let maxAdditional :=
          if rs.configuredMax > 0 then
            min additionalRunners (rs.configuredMax - a.maxRunners)
          else additionalRunners
        if maxAdditional > 0 then
          let a' : FairAllocation :=
            { a with
              maxRunners := a.maxRunners + maxAdditional
              allocatedCPU := a.allocatedCPU + maxAdditional * rs.cpuMillis
              allocatedMemory := a.allocatedMemory + maxAdditional * rs.memoryBytes }
          redistributeLoop rest (remainingCPU - maxAdditional * rs.cpuMillis)
            (remainingMemory - maxAdditional * rs.memoryBytes)
            (updateFirstByName rs.name a' allocations)
        else
          redistributeLoop rest remainingCPU remainingMemory allocations

/-- `AllocateFairShare`: weighted fair share with priority weights and
redistribution of unused capacity. -/
def AllocateFairShare (runnerSets : List RunnerSetResources)
    (availableCPUMillis availableMemoryBytes : Int) : List RunnerSetAllocation :=
  if runnerSets = [] then []
  else
    let w := totalPriorityWeight runnerSets
    let afterFirst := runnerSets.map (firstPassAlloc w availableCPUMillis availableMemoryBytes)
    let afterMin := afterFirst.map enforceMinimum
    let totalAllocatedCPU := (afterMin.map (fun a => a.allocatedCPU)).sum
    let totalAllocatedMemory := (afterMin.map (fun a => a.allocatedMemory)).sum
    let remainingCPU := availableCPUMillis - totalAllocatedCPU
    let remainingMemory := availableMemoryBytes - totalAllocatedMemory
    let final :=
      if remainingCPU > 0 ∨ remainingMemory > 0 then
        redistributeLoop
          (sortBy (fun x y => allocLess x.runnerSet y.runnerSet) afterMin)
          remainingCPU remainingMemory afterMin
      else afterMin
    final.map (fun a => ⟨a.runnerSet.name, a.maxRunners⟩)

/-! ## Quantity parser (runnerset_resources.go lines 114-145)

`parseResourceQuantityOrInt` first tries Go's `strconv.ParseInt(value,
10, 64)` and only then falls back to the Kubernetes
`resource.ParseQuantity` library call.  `strconv.ParseInt` is embedded
exactly (optional sign, decimal digits, int64 range check).  The
Kubernetes quantity library is an external collaborator of this
repository; it is modelled from the spec (§4.1) below. -/

/-- Decimal value of a non-empty all-digit character list (the core of
`strconv.ParseInt` for base 10). -/
def digitsVal (cs : List Char) : Option Nat :=
  if cs = [] then none
  else if cs.all (fun c => c.isDigit) then
    some (cs.foldl (fun acc c => acc * 10 + (c.toNat - 48)) 0)
  else none

/-- Go `strconv.ParseInt(s, 10, 64)`: optional sign, decimal digits,
result within the int64 range. -/
def parseInt64 (s : String) : Option Int :=
  match s.data with
  | '+' :: rest => (digitsVal rest).bind fun n =>
      if (n : Int) ≤ 2 ^ 63 - 1 then some (n : Int) else none
  | '-' :: rest => (digitsVal rest).bind fun n =>
      if (n : Int) ≤ 2 ^ 63 then some (-(n : Int)) else none
  | cs => (digitsVal cs).bind fun n =>
      if (n : Int) ≤ 2 ^ 63 - 1 then some (n : Int) else none

/-- Modelled from the spec: the suffix table of the external Kubernetes
`resource.ParseQuantity` as specified in §4.1 — `m` (milli), binary
`Ki`/`Mi`/`Gi`/`Ti`, decimal `k`/`M`/`G`/`T`, and the empty suffix for
whole units.  The returned multiplier is in milli-units so that all
suffixes stay integral. -/
def suffixMilliMult : List Char → Option Int
  | [] => some 1000
  | ['m'] => some 1
  | ['K', 'i'] => some (1024 * 1000)
  | ['M', 'i'] => some (1024 ^ 2 * 1000)
  | ['G', 'i'] => some (1024 ^ 3 * 1000)
  | ['T', 'i'] => some (1024 ^ 4 * 1000)
  | ['k'] => some (1000 * 1000)
  | ['M'] => some (1000 ^ 2 * 1000)
  | ['G'] => some (1000 ^ 3 * 1000)
  | ['T'] => some (1000 ^ 4 * 1000)
  | _ => none

/-- Modelled from the spec: the external `resource.ParseQuantity` on the
integral quantity forms of §4.1 (`<digits><suffix>`), returning the
quantity's value in milli-units.  Strings matching neither a bare
integer nor such a quantity fail. -/
def parseQuantityMilli (s : String) : Option Int :=
  let ds := s.data.takeWhile (fun c => c.isDigit)
  let suffix := s.data.dropWhile (fun c => c.isDigit)
  match digitsVal ds, suffixMilliMult suffix with
  | some n, some mult => some ((n : Int) * mult)
  | _, _ => none

/-- `q.MilliValue()` of a parsed quantity. -/
def quantityMilliValue (milli : Int) : Int := milli

/-- `q.Value()` of a parsed quantity: whole units, rounded up for
sub-unit quantities (Kubernetes semantics). -/
def quantityValue (milli : Int) : Int := Int.tdiv (milli + 999) 1000

/-- `parseResourceQuantityOrInt`: raw integer first (backward
compatibility), then resource quantity; millicores for CPU, bytes for
memory. -/
def parseResourceQuantityOrInt (value : String) (isCPU : Bool) : Option Int :=
  match parseInt64 value with
  | some intVal => some intVal
  | none =>
    match parseQuantityMilli value with
    | none => none
    | some q => some (if isCPU then quantityMilliValue q else quantityValue q)

/-! ## Resource extractor (runnerset_resources.go lines 23-112) -/

/-- The per-set error taxonomy of the extractor (spec §7; the Go source
wraps these as `fmt.Errorf` strings). -/
inductive ExtractError where
  | notEnabled
  | invalidPriority
  | invalidMin
  | invalidCPU
  | invalidMemory
  | missingCPU
  | missingMemory
deriving Repr, DecidableEq

deriving instance DecidableEq for Except

/-- One container of the runner-set pod template, with its resource
requests already normalized (CPU in millicores, memory in bytes). -/
structure ContainerSpec where
  name : String
  requestsCPUMilli : Option Int
  requestsMemoryBytes : Option Int
deriving Repr, DecidableEq

/-- The `AutoscalingRunnerSet` fields the controller reads: name,
annotations (association list standing in for the Go map), the optional
`spec.maxRunners`, the pod-template containers, and
`status.currentRunners`. -/
structure AutoscalingRunnerSet where
  name : String
  annotations : List (String × String)
  maxRunners : Option Int
  containers : List ContainerSpec
  currentRunners : Int
deriving Repr, DecidableEq

/-- Annotation key `kula.app/gha-runner-autoscaler-enabled`. -/
def AnnotationEnabled : String := "kula.app/gha-runner-autoscaler-enabled"

/-- Annotation key `kula.app/gha-runner-autoscaler-cpu`. -/
def AnnotationCPU : String := "kula.app/gha-runner-autoscaler-cpu"

/-- Annotation key `kula.app/gha-runner-autoscaler-memory`. -/
def AnnotationMemory : String := "kula.app/gha-runner-autoscaler-memory"

/-- Annotation key `kula.app/gha-runner-autoscaler-priority`. -/
def AnnotationPriority : String := "kula.app/gha-runner-autoscaler-priority"

/-- Modelled from the spec: annotation key
`kula.app/gha-runner-autoscaler-min-runners` (spec §6 and the repo's
deployment examples); the constant is absent from the config source
snapshot under review. -/
def AnnotationMinRunners : String := "kula.app/gha-runner-autoscaler-min-runners"

/-- Go map lookup `rs.Annotations[key]` with presence flag. -/
def lookupAnnotation (rs : AutoscalingRunnerSet) (key : String) : Option String :=
  (rs.annotations.find? (fun p => p.1 = key)).map (fun p => p.2)

/-- `extractCPUFromPodSpec`: CPU request of the first container named
`"runner"` that carries one. -/
def extractCPUFromPodSpec : List ContainerSpec → Option Int
  | [] => none
  | c :: rest =>
    if c.name = "runner" then
      match c.requestsCPUMilli with
      | some q => some q
      | none => extractCPUFromPodSpec rest
    else extractCPUFromPodSpec rest

/-- `extractMemoryFromPodSpec`: memory request of the first container
named `"runner"` that carries one. -/
def extractMemoryFromPodSpec : List ContainerSpec → Option Int
  | [] => none
  | c :: rest =>
    if c.name = "runner" then
      match c.requestsMemoryBytes with
      | some q => some q
      | none => extractMemoryFromPodSpec rest
    else extractMemoryFromPodSpec rest

/-- Modelled from the spec: the min-runners annotation value must be a
non-negative integer (§4.2, §6); anything else is `InvalidMin`. -/
def parseMinRunners (s : String) : Option Int :=
  match parseInt64 s with
  | some n => if 0 ≤ n then some n else none
  | none => none

/-- `ExtractRunnerSetResources`: opt-in gate, `maxRunners` read into
both `currentMax` and `configuredMax`, priority annotation, min-runners
annotation (modelled from the spec — the parsing code for it is missing
from the extractor source snapshot, whose struct also lacks the
`MinRunners` field that allocator.go and the tests use), then CPU and
memory with annotation-over-pod-template precedence. -/
def ExtractRunnerSetResources (rs : AutoscalingRunnerSet) :
    Except ExtractError RunnerSetResources :=
  if lookupAnnotation rs AnnotationEnabled ≠ some "true" then
    .error .notEnabled
  else
    let currentMax := rs.maxRunners.getD 0
    let configuredMax := rs.maxRunners.getD 0
    let priorityResult : Except ExtractError Int :=
      match lookupAnnotation rs AnnotationPriority with
      | some priorityStr =>
        match parseInt64 priorityStr with
        | some p => .ok p
        | none => .error .invalidPriority
      | none => .ok 0
    match priorityResult with
    | .error e => .error e
    | .ok priority =>
      let minResult : Except ExtractError Int :=
        match lookupAnnotation rs AnnotationMinRunners with
        | some minStr =>
          match parseMinRunners minStr with
          | some m => .ok m
          | none => .error .invalidMin
        | none => .ok 0
      match minResult with
      | .error e => .error e
      | .ok minRunners =>
        let cpuResult : Except ExtractError Int :=
          match lookupAnnotation rs AnnotationCPU with
          | some cpuStr =>
            match parseResourceQuantityOrInt cpuStr true with
            | some cpu => .ok cpu
            | none => .error .invalidCPU
          | none =>
            match extractCPUFromPodSpec rs.containers with
            | some cpu => .ok cpu
            | none => .error .missingCPU
        match cpuResult with
        | .error e => .error e
        | .ok cpuMillis =>
          let memResult : Except ExtractError Int :=
            match lookupAnnotation rs AnnotationMemory with
            | some memStr =>
              match parseResourceQuantityOrInt memStr false with
              | some mem => .ok mem
              | none => .error .invalidMemory
            | none =>
              match extractMemoryFromPodSpec rs.containers with
              | some mem => .ok mem
              | none => .error .missingMemory
          match memResult with
          | .error e => .error e
          | .ok memoryBytes =>
            .ok
              { name := rs.name
                cpuMillis := cpuMillis
                memoryBytes := memoryBytes
                priority := priority
                minRunners := minRunners
                currentMax := currentMax
                configuredMax := configuredMax }

/-! ## Capacity calculator (capacity.go) -/

/-- One node condition (`type`, `status`). -/
structure NodeCondition where
  condType : String
  status : String
deriving Repr, DecidableEq

/-- A cluster node: conditions plus allocatable CPU (millicores) and
memory (bytes); a resource missing from `status.allocatable` is the Go
zero quantity, i.e. 0. -/
structure NodeInfo where
  conditions : List NodeCondition
  allocatableCPUMilli : Int
  allocatableMemoryBytes : Int
deriving Repr, DecidableEq

/-- One pod container's resource requests (missing request = 0, the Go
zero quantity). -/
structure PodContainer where
  requestsCPUMilli : Int
  requestsMemoryBytes : Int
deriving Repr, DecidableEq

/-- A pod: phase, labels (association list for the Go map; a nil map is
the empty list) and containers. -/
structure PodInfo where
  phase : String
  labels : List (String × String)
  containers : List PodContainer
deriving Repr, DecidableEq

/-- Go label lookup `labels[key]`: missing key yields `""`. -/
def lookupLabel (labels : List (String × String)) (key : String) : String :=
  ((labels.find? (fun p => p.1 = key)).map (fun p => p.2)).getD ""

/-- `isNodeReady`: the first `Ready` condition decides; a node without
one is not ready. -/
def isNodeReady : List NodeCondition → Bool
  | [] => false
  | c :: rest => if c.condType = "Ready" then c.status = "True" else isNodeReady rest

/-- `isRunnerPod`: runner pods carry the scale-set label or the runner
component label. -/
def isRunnerPod (pod : PodInfo) : Bool :=
  lookupLabel pod.labels "actions.github.com/scale-set-name" ≠ "" ∨
    lookupLabel pod.labels "app.kubernetes.io/component" = "runner"

/-- `getClusterCapacity`: total allocatable CPU/memory over Ready nodes. -/
def getClusterCapacity (nodes : List NodeInfo) : Int × Int :=
  nodes.foldl
    (fun acc node =>
      if isNodeReady node.conditions then
        (acc.1 + node.allocatableCPUMilli, acc.2 + node.allocatableMemoryBytes)
      else acc)
    (0, 0)

/-- Sum of a pod's container CPU requests. -/
def podCPUMilli (pod : PodInfo) : Int :=
  pod.containers.foldl (fun acc c => acc + c.requestsCPUMilli) 0

/-- Sum of a pod's container memory requests. -/
def podMemoryBytes (pod : PodInfo) : Int :=
  pod.containers.foldl (fun acc c => acc + c.requestsMemoryBytes) 0

/-- `getCurrentUsage`: (used CPU, used memory, excluded CPU, excluded
memory).  Terminal pods are skipped entirely; runner pods are tallied as
excluded; every other pod counts as used. -/
def getCurrentUsage (pods : List PodInfo) : Int × Int × Int × Int :=
  pods.foldl
    (fun acc pod =>
      if pod.phase = "Succeeded" ∨ pod.phase = "Failed" then acc
      else if isRunnerPod pod then
        (acc.1, acc.2.1, acc.2.2.1 + podCPUMilli pod, acc.2.2.2 + podMemoryBytes pod)
      else
        (acc.1 + podCPUMilli pod, acc.2.1 + podMemoryBytes pod, acc.2.2.1, acc.2.2.2))
    (0, 0, 0, 0)

/-- `ClusterCapacity` snapshot. -/
structure ClusterCapacity where
  totalCPUMillis : Int
  totalMemoryBytes : Int
  usedCPUMillis : Int
  usedMemoryBytes : Int
  availableCPUMillis : Int
  availableMemoryBytes : Int
deriving Repr, DecidableEq

/-- `Calculate`: total and used capacity, then
`available = max(total − used, 0) × (100 − buffer%) / 100` with
truncating integer division. -/
def Calculate (nodes : List NodeInfo) (pods : List PodInfo)
    (cpuBufferPercent memBufferPercent : Int) : ClusterCapacity :=
  let totals := getClusterCapacity nodes
  let usage := getCurrentUsage pods
  let totalCPU := totals.1
  let totalMemory := totals.2
  let usedCPU := usage.1
  let usedMemory := usage.2.1
  let rawAvailableCPU := max (totalCPU - usedCPU) 0
  let rawAvailableMemory := max (totalMemory - usedMemory) 0
  { totalCPUMillis := totalCPU
    totalMemoryBytes := totalMemory
    usedCPUMillis := usedCPU
    usedMemoryBytes := usedMemory
    availableCPUMillis := Int.tdiv (rawAvailableCPU * (100 - cpuBufferPercent)) 100
    availableMemoryBytes := Int.tdiv (rawAvailableMemory * (100 - memBufferPercent)) 100 }

/-! ## Reconciler core (reconciler.go `ReconcileOnce`, steps 3-6)

The I/O shell (capacity fetch, listing, patch transport) is external;
the pure per-tick core embedded here takes the listed runner sets and
the calculated available capacity, extracts the enabled sets, runs the
strict-priority allocator (the algorithm `ReconcileOnce` calls), applies
the active-runner safety floor, and decides which sets to patch. -/

/-- Step 3 of `ReconcileOnce`: extract each runner set, skipping the
ones whose extraction fails. -/
def extractEnabled (runnerSets : List AutoscalingRunnerSet) : List RunnerSetResources :=
  runnerSets.filterMap (fun rs => (ExtractRunnerSetResources rs).toOption)

/-- The lookup at reconciler.go lines 143-149: find the runner set an
allocation belongs to by name. -/
def findRunnerSet (runnerSets : List AutoscalingRunnerSet) (name : String) :
    Option AutoscalingRunnerSet :=
  runnerSets.find? (fun rs => rs.name = name)

/-- The per-allocation `newMax` of reconciler.go lines 162-175: the
active-runner safety floor. -/
def safetyFloor (allocated currentlyRunning : Int) : Int :=
  if allocated < currentlyRunning then currentlyRunning else allocated

/-- The final `maxRunners` values computed in step 5 of `ReconcileOnce`,
one per allocation whose runner set is found. -/
def applyAllocationsFinals (runnerSets : List AutoscalingRunnerSet) :
    List RunnerSetAllocation → List (String × Int)
  | [] => []
  | alloc :: rest =>
    match findRunnerSet runnerSets alloc.name with
    | none => applyAllocationsFinals runnerSets rest
    | some rs =>
      (alloc.name, safetyFloor alloc.maxRunners rs.currentRunners) ::
        applyAllocationsFinals runnerSets rest

/-- The patch calls issued in step 5 of `ReconcileOnce`: a set whose
current `maxRunners` already equals the final value is skipped. -/
def applyAllocationsPatches (runnerSets : List AutoscalingRunnerSet) :
    List RunnerSetAllocation → List (String × Int)
  | [] => []
  | alloc :: rest =>
    match findRunnerSet runnerSets alloc.name with
    | none => applyAllocationsPatches runnerSets rest
    | some rs =>
      let currentMax := rs.maxRunners.getD 0
      let newMax := safetyFloor alloc.maxRunners rs.currentRunners
      if currentMax = newMax then applyAllocationsPatches runnerSets rest
      else (alloc.name, newMax) :: applyAllocationsPatches runnerSets rest

/-- The final values of one reconciliation tick. -/
def reconcileFinals (runnerSets : List AutoscalingRunnerSet)
    (availableCPUMillis availableMemoryBytes : Int) : List (String × Int) :=
  applyAllocationsFinals runnerSets
    (Allocate (extractEnabled runnerSets) availableCPUMillis availableMemoryBytes)

/-- The patch calls of one reconciliation tick. -/
def reconcilePatches (runnerSets : List AutoscalingRunnerSet)
    (availableCPUMillis availableMemoryBytes : Int) : List (String × Int) :=
  applyAllocationsPatches runnerSets
    (Allocate (extractEnabled runnerSets) availableCPUMillis availableMemoryBytes)

/-- Effect of the issued patches on one runner set (`updateRunnerSet`
sets `spec.maxRunners`; nothing else changes). -/
def patchOne (patches : List (String × Int)) (rs : AutoscalingRunnerSet) :
    AutoscalingRunnerSet :=
  match patches.find? (fun p => p.1 = rs.name) with
  | some p => { rs with maxRunners := some p.2 }
  | none => rs

/-- Effect of the issued patches on the cluster state. -/
def applyPatches (runnerSets : List AutoscalingRunnerSet)
    (patches : List (String × Int)) : List AutoscalingRunnerSet :=
  runnerSets.map (patchOne patches)

/-! ## General lemmas about the embedded sort and the allocation loop -/

theorem mem_insertBy {lt : α → α → Bool} {a x : α} {l : List α} :
    x ∈ insertBy lt a l ↔ x = a ∨ x ∈ l := by
  induction l with
  | nil => simp [insertBy]
  | cons b l ih =>
    simp only [insertBy]
    split
    · simp only [List.mem_cons, ih]
      tauto
    · simp only [List.mem_cons]

theorem mem_sortBy {lt : α → α → Bool} {x : α} {l : List α} :
    x ∈ sortBy lt l ↔ x ∈ l := by
  induction l with
  | nil => simp [sortBy]
  | cons b l ih => simp [sortBy, mem_insertBy, ih]

theorem insertBy_perm (lt : α → α → Bool) (a : α) (l : List α) :
    (insertBy lt a l).Perm (a :: l) := by
  induction l with
  | nil => simp [insertBy]
  | cons b l ih =>
    simp only [insertBy]
    split
    · exact (ih.cons b).trans (List.Perm.swap a b l)
    · exact List.Perm.refl _

theorem sortBy_perm (lt : α → α → Bool) (l : List α) :
    (sortBy lt l).Perm l := by
  induction l with
  | nil => exact List.Perm.refl _
  | cons a l ih => exact (insertBy_perm lt a (sortBy lt l)).trans (ih.cons a)

theorem sortRunnerSets_perm (l : List RunnerSetResources) :
    (sortRunnerSets l).Perm l :=
  sortBy_perm allocLess l

/-- The allocation loop emits exactly one entry per runner set, in
order, with the set's name. -/
theorem allocateLoop_names (l : List RunnerSetResources) (cpu mem : Int) :
    (allocateLoop l cpu mem).map (fun a => a.name) = l.map (fun rs => rs.name) := by
  induction l generalizing cpu mem with
  | nil => rfl
  | cons rs rest ih => simp [allocateLoop, ih]

theorem allocateLoop_zip_names (l : List RunnerSetResources) (cpu mem : Int) :
    ∀ p ∈ l.zip (allocateLoop l cpu mem), p.2.name = p.1.name := by
  induction l generalizing cpu mem with
  | nil => intro p hp; simp [allocateLoop] at hp
  | cons rs rest ih =>
    intro p hp
    simp only [allocateLoop, List.zip_cons_cons, List.mem_cons] at hp
    rcases hp with h | h
    · subst h; rfl
    · exact ih _ _ p h

/-- The safety floor is the max of the allocation and the running count. -/
theorem safetyFloor_eq_max (a r : Int) : safetyFloor a r = max a r := by
  unfold safetyFloor
  split <;> omega

/-- Bounds on the fit primitive: it is non-negative and, for
non-negative availability, what it allocates fits in the availability. -/
theorem calculateMaxRunners_bounds (rs : RunnerSetResources) (cpu mem : Int)
    (hc : 0 ≤ cpu) (hm : 0 ≤ mem) :
    0 ≤ calculateMaxRunners rs cpu mem ∧
      calculateMaxRunners rs cpu mem * rs.cpuMillis ≤ cpu ∧
      calculateMaxRunners rs cpu mem * rs.memoryBytes ≤ mem := by
  unfold calculateMaxRunners
  split
  · simpa using ⟨hc, hm⟩
  · rename_i hdeg
    push_neg at hdeg
    obtain ⟨hcb, hmb⟩ := hdeg
    simp only []
    set q := min (Int.tdiv mem rs.memoryBytes) (Int.tdiv cpu rs.cpuMillis) with hq
    have hcpu_nonneg : 0 ≤ Int.tdiv cpu rs.cpuMillis := Int.tdiv_nonneg hc (le_of_lt hcb)
    have hmem_nonneg : 0 ≤ Int.tdiv mem rs.memoryBytes := Int.tdiv_nonneg hm (le_of_lt hmb)
    have h1 : max 0 q ≤ Int.tdiv cpu rs.cpuMillis := by
      have := min_le_right (Int.tdiv mem rs.memoryBytes) (Int.tdiv cpu rs.cpuMillis)
      omega
    have h2 : max 0 q ≤ Int.tdiv mem rs.memoryBytes := by
      have := min_le_left (Int.tdiv mem rs.memoryBytes) (Int.tdiv cpu rs.cpuMillis)
      omega
    refine ⟨le_max_left 0 q, ?_, ?_⟩
    · calc max 0 q * rs.cpuMillis ≤ Int.tdiv cpu rs.cpuMillis * rs.cpuMillis :=
            mul_le_mul_of_nonneg_right h1 (le_of_lt hcb)
        _ = cpu / rs.cpuMillis * rs.cpuMillis := by
            rw [Int.tdiv_eq_ediv hc (le_of_lt hcb)]
        _ ≤ cpu := Int.ediv_mul_le cpu (ne_of_gt hcb)
    · calc max 0 q * rs.memoryBytes ≤ Int.tdiv mem rs.memoryBytes * rs.memoryBytes :=
            mul_le_mul_of_nonneg_right h2 (le_of_lt hmb)
        _ = mem / rs.memoryBytes * rs.memoryBytes := by
            rw [Int.tdiv_eq_ediv hm (le_of_lt hmb)]
        _ ≤ mem := Int.ediv_mul_le mem (ne_of_gt hmb)

/-- With a positive configured max strictly below the minimum, one
allocation step emits exactly the configured max, whatever the remaining
capacity: the cap is applied after the minimum promotion and wins. -/
theorem allocStep_cap_wins (rs : RunnerSetResources) (cpu mem : Int)
    (hpos : 0 < rs.configuredMax) (hlt : rs.configuredMax < rs.minRunners) :
    allocStep rs cpu mem = rs.configuredMax := by
  unfold allocStep
  dsimp only
  set fitted := calculateMaxRunners rs cpu mem with hf
  by_cases hmin : rs.minRunners > 0 ∧ fitted < rs.minRunners
  · rw [if_pos hmin, if_pos ⟨hpos, hlt⟩]
  · rw [if_neg hmin]
    have : rs.minRunners ≤ fitted := by
      rcases not_and_or.mp hmin with h | h
      · omega
      · omega
    rw [if_pos ⟨hpos, by omega⟩]

/-- With no minimum guarantee, one allocation step is non-negative and
fits within non-negative remaining capacity. -/
theorem allocStep_min_zero_bounds (rs : RunnerSetResources) (cpu mem : Int)
    (hmin : rs.minRunners = 0) (hc : 0 ≤ cpu) (hm : 0 ≤ mem) :
    0 ≤ allocStep rs cpu mem ∧
      allocStep rs cpu mem * rs.cpuMillis ≤ cpu ∧
      allocStep rs cpu mem * rs.memoryBytes ≤ mem := by
  unfold allocStep
  dsimp only
  rw [hmin]
  simp only [lt_irrefl, false_and, if_false]
  obtain ⟨hf0, hfc, hfm⟩ := calculateMaxRunners_bounds rs cpu mem hc hm
  set fitted := calculateMaxRunners rs cpu mem with hf
  by_cases hcap : rs.configuredMax > 0 ∧ fitted > rs.configuredMax
  · rw [if_pos hcap]
    -- the cap branch requires fitted > configuredMax > 0, so the spec is valid
    have hfpos : 0 < fitted := by omega
    have hvalid : ¬(rs.cpuMillis ≤ 0 ∨ rs.memoryBytes ≤ 0) := by
      intro hdeg
      have : fitted = 0 := by
        rw [hf]
        unfold calculateMaxRunners
        rw [if_pos hdeg]
      omega
    push_neg at hvalid
    obtain ⟨hcb, hmb⟩ := hvalid
    constructor
    · omega
    constructor
    · calc rs.configuredMax * rs.cpuMillis ≤ fitted * rs.cpuMillis :=
            mul_le_mul_of_nonneg_right (by omega) (le_of_lt hcb)
        _ ≤ cpu := hfc
    · calc rs.configuredMax * rs.memoryBytes ≤ fitted * rs.memoryBytes :=
            mul_le_mul_of_nonneg_right (by omega) (le_of_lt hmb)
        _ ≤ mem := hfm
  · rw [if_neg hcap]
    exact ⟨hf0, hfc, hfm⟩

/-- Unfolding equation for one step of the allocation loop. -/
theorem allocateLoop_cons (rs : RunnerSetResources) (rest : List RunnerSetResources)
    (cpu mem : Int) :
    allocateLoop (rs :: rest) cpu mem =
      ⟨rs.name, allocStep rs cpu mem⟩ ::
        allocateLoop rest (cpu - allocStep rs cpu mem * rs.cpuMillis)
          (mem - allocStep rs cpu mem * rs.memoryBytes) := rfl

/-- Every runner set with a positive configured max below its minimum is
emitted with exactly the configured max, whatever capacity the loop is
started with. -/
theorem allocateLoop_emits_cap (l : List RunnerSetResources) :
    ∀ (cpu mem : Int) (rs : RunnerSetResources), rs ∈ l →
      0 < rs.configuredMax → rs.configuredMax < rs.minRunners →
      ∃ e ∈ allocateLoop l cpu mem, e.name = rs.name ∧ e.maxRunners = rs.configuredMax := by
  induction l with
  | nil => intro cpu mem rs h; simp at h
  | cons hd rest ih =>
    intro cpu mem rs hmem hpos hlt
    rw [allocateLoop_cons]
    rcases List.mem_cons.mp hmem with heq | htail
    · subst heq
      exact ⟨⟨rs.name, allocStep rs cpu mem⟩, List.mem_cons_self _ _, rfl,
        allocStep_cap_wins rs cpu mem hpos hlt⟩
    · obtain ⟨e, he, hn, hv⟩ := ih _ _ rs htail hpos hlt
      exact ⟨e, List.mem_cons_of_mem _ he, hn, hv⟩

/-- C1 (amended): in the strict-priority allocator, for every runner set
with `configured_max > 0` and `min_runners > configured_max`, the cap is
applied after the minimum promotion and therefore wins: the emitted slot
count is exactly `configured_max` (not `min_runners`). -/
theorem c1_cap_wins_over_min (runnerSets : List RunnerSetResources) (cpu mem : Int)
    (rs : RunnerSetResources) (hmem : rs ∈ runnerSets)
    (hpos : 0 < rs.configuredMax) (hlt : rs.configuredMax < rs.minRunners) :
    ∃ e ∈ Allocate runnerSets cpu mem,
      e.name = rs.name ∧ e.maxRunners = rs.configuredMax := by
  unfold Allocate
  exact allocateLoop_emits_cap (sortRunnerSets runnerSets) cpu mem rs
    (mem_sortBy.mpr hmem) hpos hlt

/-- Witness for `c1_cap_wins_over_min` at a concrete input. -/
theorem c1_witness :
    ∃ e ∈ Allocate [⟨"x", 1000, 1000, 0, 5, 3, 3⟩] 0 0,
      e.name = (⟨"x", 1000, 1000, 0, 5, 3, 3⟩ : RunnerSetResources).name ∧
      e.maxRunners = (⟨"x", 1000, 1000, 0, 5, 3, 3⟩ : RunnerSetResources).configuredMax :=
  c1_cap_wins_over_min [⟨"x", 1000, 1000, 0, 5, 3, 3⟩] 0 0 ⟨"x", 1000, 1000, 0, 5, 3, 3⟩
    (by decide) (by decide) (by decide)

/-- C1 (counterexample): a runner set with `configured_max = 3 > 0` and
`min_runners = 5 > configured_max` is emitted with 3 slots, strictly
below its `min_runners`: the strict-priority allocator does not honor
the minimum over the cap. -/
theorem c1_counterexample :
    0 < (⟨"x", 1000, 1000, 0, 5, 3, 3⟩ : RunnerSetResources).configuredMax ∧
    (⟨"x", 1000, 1000, 0, 5, 3, 3⟩ : RunnerSetResources).configuredMax <
      (⟨"x", 1000, 1000, 0, 5, 3, 3⟩ : RunnerSetResources).minRunners ∧
    Allocate [⟨"x", 1000, 1000, 0, 5, 3, 3⟩] 0 0 = [⟨"x", 3⟩] ∧
    ¬((⟨"x", 1000, 1000, 0, 5, 3, 3⟩ : RunnerSetResources).minRunners ≤ 3) := by
  decide

/-- Total CPU and memory cost of the emitted allocations, paired
positionally with the sorted input (the loop emits exactly one entry per
sorted set, in order; see `allocateLoop_names`). -/
theorem allocateLoop_cost_le (l : List RunnerSetResources) :
    ∀ (cpu mem : Int), (∀ rs ∈ l, rs.minRunners = 0) → 0 ≤ cpu → 0 ≤ mem →
      ((l.zip (allocateLoop l cpu mem)).map
          (fun p => p.2.maxRunners * p.1.cpuMillis)).sum ≤ cpu ∧
      ((l.zip (allocateLoop l cpu mem)).map
          (fun p => p.2.maxRunners * p.1.memoryBytes)).sum ≤ mem := by
  induction l with
  | nil => intro cpu mem _ hc hm; simp [allocateLoop]; omega
  | cons rs rest ih =>
    intro cpu mem hmin hc hm
    rw [allocateLoop_cons]
    obtain ⟨ha0, hac, ham⟩ :=
      allocStep_min_zero_bounds rs cpu mem (hmin rs (List.mem_cons_self _ _)) hc hm
    have hc' : (0 : Int) ≤ cpu - allocStep rs cpu mem * rs.cpuMillis := by omega
    have hm' : (0 : Int) ≤ mem - allocStep rs cpu mem * rs.memoryBytes := by omega
    obtain ⟨ih1, ih2⟩ := ih _ _ (fun r hr => hmin r (List.mem_cons_of_mem _ hr)) hc' hm'
    simp only [List.zip_cons_cons, List.map_cons, List.sum_cons]
    constructor
    · have := ih1
      omega
    · have := ih2
      omega

/-- C3: absent minimum guarantees, the strict-priority allocator never
overcommits: the total CPU (resp. memory) cost of the emitted slot
counts is bounded by the available CPU (resp. memory).  The sum ranges
over the allocations paired with the sorted runner-set list, which is a
permutation of the input (first conjunct), so it is the sum over all
sets. -/
theorem c3_no_overcommit (runnerSets : List RunnerSetResources) (cpu mem : Int)
    (hmin : ∀ rs ∈ runnerSets, rs.minRunners = 0) (hc : 0 ≤ cpu) (hm : 0 ≤ mem) :
    (sortRunnerSets runnerSets).Perm runnerSets ∧
    (((sortRunnerSets runnerSets).zip (Allocate runnerSets cpu mem)).map
        (fun p => p.2.maxRunners * p.1.cpuMillis)).sum ≤ cpu ∧
    (((sortRunnerSets runnerSets).zip (Allocate runnerSets cpu mem)).map
        (fun p => p.2.maxRunners * p.1.memoryBytes)).sum ≤ mem := by
  obtain ⟨h1, h2⟩ := allocateLoop_cost_le (sortRunnerSets runnerSets) cpu mem
    (fun r hr => hmin r (mem_sortBy.mp hr)) hc hm
  exact ⟨sortRunnerSets_perm _, h1, h2⟩

/-- Witness for `c3_no_overcommit` at a concrete input. -/
theorem c3_witness :
    (sortRunnerSets [⟨"a", 1000, 1024, 5, 0, 10, 10⟩, ⟨"b", 500, 512, 3, 0, 0, 0⟩]).Perm
        [⟨"a", 1000, 1024, 5, 0, 10, 10⟩, ⟨"b", 500, 512, 3, 0, 0, 0⟩] ∧
    (((sortRunnerSets [⟨"a", 1000, 1024, 5, 0, 10, 10⟩, ⟨"b", 500, 512, 3, 0, 0, 0⟩]).zip
        (Allocate [⟨"a", 1000, 1024, 5, 0, 10, 10⟩, ⟨"b", 500, 512, 3, 0, 0, 0⟩] 3000 4096)).map
        (fun p => p.2.maxRunners * p.1.cpuMillis)).sum ≤ 3000 ∧
    (((sortRunnerSets [⟨"a", 1000, 1024, 5, 0, 10, 10⟩, ⟨"b", 500, 512, 3, 0, 0, 0⟩]).zip
        (Allocate [⟨"a", 1000, 1024, 5, 0, 10, 10⟩, ⟨"b", 500, 512, 3, 0, 0, 0⟩] 3000 4096)).map
        (fun p => p.2.maxRunners * p.1.memoryBytes)).sum ≤ 4096 :=
  c3_no_overcommit [⟨"a", 1000, 1024, 5, 0, 10, 10⟩, ⟨"b", 500, 512, 3, 0, 0, 0⟩] 3000 4096
    (by decide) (by decide) (by decide)

/-! ## Safety floor (C2) -/

theorem applyAllocationsFinals_cons (sets : List AutoscalingRunnerSet)
    (a : RunnerSetAllocation) (rest : List RunnerSetAllocation) :
    applyAllocationsFinals sets (a :: rest) =
      match findRunnerSet sets a.name with
      | none => applyAllocationsFinals sets rest
      | some rs => (a.name, safetyFloor a.maxRunners rs.currentRunners) ::
          applyAllocationsFinals sets rest := rfl

theorem applyAllocationsFinals_cons_none {sets : List AutoscalingRunnerSet}
    {a : RunnerSetAllocation} {rest : List RunnerSetAllocation}
    (h : findRunnerSet sets a.name = none) :
    applyAllocationsFinals sets (a :: rest) = applyAllocationsFinals sets rest := by
  rw [applyAllocationsFinals_cons, h]

theorem applyAllocationsFinals_cons_some {sets : List AutoscalingRunnerSet}
    {a : RunnerSetAllocation} {rest : List RunnerSetAllocation}
    {rs : AutoscalingRunnerSet} (h : findRunnerSet sets a.name = some rs) :
    applyAllocationsFinals sets (a :: rest) =
      (a.name, safetyFloor a.maxRunners rs.currentRunners) ::
        applyAllocationsFinals sets rest := by
  rw [applyAllocationsFinals_cons, h]

/-- Every emitted final value is the safety floor of some allocation for
a runner set found by name. -/
theorem applyAllocationsFinals_mem (sets : List AutoscalingRunnerSet)
    (allocs : List RunnerSetAllocation) (name : String) (fin : Int)
    (h : (name, fin) ∈ applyAllocationsFinals sets allocs) :
    ∃ rs, findRunnerSet sets name = some rs ∧
      ∃ a ∈ allocs, a.name = name ∧ fin = max a.maxRunners rs.currentRunners := by
  induction allocs with
  | nil => simp [applyAllocationsFinals] at h
  | cons a rest ih =>
    cases hfind : findRunnerSet sets a.name with
    | none =>
      rw [applyAllocationsFinals_cons_none hfind] at h
      obtain ⟨rs, h1, a', ha', h2⟩ := ih h
      exact ⟨rs, h1, a', List.mem_cons_of_mem _ ha', h2⟩
    | some rs =>
      rw [applyAllocationsFinals_cons_some hfind] at h
      rcases List.mem_cons.mp h with hhead | htail
      · obtain ⟨h1, h2⟩ := Prod.mk.injEq .. |>.mp hhead
        subst h1
        subst h2
        exact ⟨rs, hfind, a, List.mem_cons_self _ _, rfl, safetyFloor_eq_max _ _⟩
      · obtain ⟨rs', h1, a', ha', h2⟩ := ih htail
        exact ⟨rs', h1, a', List.mem_cons_of_mem _ ha', h2⟩

/-- C2: every final maxRunners value emitted by a reconciliation tick is
`max(allocated, currently_running)` for the allocation and runner set it
belongs to; in particular it is never below the set's observed running
count. -/
theorem c2_safety_floor (sets : List AutoscalingRunnerSet) (cpu mem : Int)
    (name : String) (fin : Int) (h : (name, fin) ∈ reconcileFinals sets cpu mem) :
    ∃ rs, findRunnerSet sets name = some rs ∧
      ∃ a ∈ Allocate (extractEnabled sets) cpu mem,
        a.name = name ∧ fin = max a.maxRunners rs.currentRunners ∧
          rs.currentRunners ≤ fin := by
  obtain ⟨rs, h1, a, ha, h2, h3⟩ := applyAllocationsFinals_mem sets _ name fin h
  exact ⟨rs, h1, a, ha, h2, h3, h3 ▸ le_max_right _ _⟩

/-- Scenario C input: zero capacity, 13 currently-running runners. -/
def scenarioCSet : AutoscalingRunnerSet :=
  { name := "x"
    annotations := [(AnnotationEnabled, "true"), (AnnotationCPU, "1000"),
      (AnnotationMemory, "1000")]
    maxRunners := none
    containers := []
    currentRunners := 13 }

/-- Witness for `c2_safety_floor`: Scenario C — zero capacity and 13
running runners yield a final max of 13. -/
theorem c2_witness :
    (("x", 13) ∈ reconcileFinals [scenarioCSet] 0 0) ∧
    ∃ rs, findRunnerSet [scenarioCSet] "x" = some rs ∧
      ∃ a ∈ Allocate (extractEnabled [scenarioCSet]) 0 0,
        a.name = "x" ∧ (13 : Int) = max a.maxRunners rs.currentRunners ∧
          rs.currentRunners ≤ 13 :=
  ⟨by decide, c2_safety_floor [scenarioCSet] 0 0 "x" 13 (by decide)⟩

/-! ## Fair-share weights and budgets (C4, C7, C10) -/

/-- C4 (amended): the fair-share effective weight is the priority itself
unless it is exactly 0 (then 1); this agrees with `max(priority, 1)` for
non-negative priorities only — negative priorities keep their negative
weight.  The total weight is the sum of effective weights, and the
first-pass budget of each set (as computed by `firstPassAlloc`, which
`AllocateFairShare` maps over the input) is the truncated division
`(avail × w) / W`, followed by the fit and the configured-max cap. -/
theorem c4_effective_weight (runnerSets : List RunnerSetResources) (cpu mem : Int)
    (rs : RunnerSetResources) :
    (effectiveWeight rs.priority = if rs.priority = 0 then 1 else rs.priority) ∧
    (0 ≤ rs.priority → effectiveWeight rs.priority = max rs.priority 1) ∧
    (rs.priority < 0 → effectiveWeight rs.priority = rs.priority) ∧
    (totalPriorityWeight runnerSets =
      runnerSets.foldl (fun acc r => acc + effectiveWeight r.priority) 0) ∧
    ((firstPassAlloc (totalPriorityWeight runnerSets) cpu mem rs).maxRunners =
      (let w := if rs.priority = 0 then (1 : Int) else rs.priority
       let shareCPU := Int.tdiv (cpu * w) (totalPriorityWeight runnerSets)
       let shareMem := Int.tdiv (mem * w) (totalPriorityWeight runnerSets)
       let slots := calculateMaxRunners rs shareCPU shareMem
       if rs.configuredMax > 0 ∧ slots > rs.configuredMax then rs.configuredMax
       else slots)) := by
  refine ⟨rfl, ?_, ?_, rfl, rfl⟩
  · intro h
    unfold effectiveWeight
    split <;> omega
  · intro h
    unfold effectiveWeight
    split <;> omega

/-- Witness for `c4_effective_weight` at concrete priorities. -/
theorem c4_witness :
    effectiveWeight ((⟨"w", 0, 0, 5, 0, 0, 0⟩ : RunnerSetResources).priority) =
        max ((⟨"w", 0, 0, 5, 0, 0, 0⟩ : RunnerSetResources).priority) 1 ∧
    effectiveWeight ((⟨"w", 0, 0, -2, 0, 0, 0⟩ : RunnerSetResources).priority) =
        (⟨"w", 0, 0, -2, 0, 0, 0⟩ : RunnerSetResources).priority :=
  ⟨(c4_effective_weight [] 0 0 ⟨"w", 0, 0, 5, 0, 0, 0⟩).2.1 (by decide),
   (c4_effective_weight [] 0 0 ⟨"w", 0, 0, -2, 0, 0, 0⟩).2.2.1 (by decide)⟩

/-- C4 (counterexample): a priority of −1 is NOT treated as weight 1 =
max(−1, 1): the code keeps the negative weight, observable in the
fair-share output — with sets of priorities −1 and 3 the total weight is
2 (not 4), the negative-priority set gets a negative budget and 0 slots,
and the other set's budget overshoots to 6 slots. -/
theorem c4_counterexample :
    effectiveWeight (-1) = -1 ∧
    max (-1 : Int) 1 = 1 ∧
    effectiveWeight (-1) ≠ max (-1 : Int) 1 ∧
    totalPriorityWeight
      [⟨"a", 1000, 1024 ^ 3, -1, 0, 0, 0⟩, ⟨"b", 1000, 1024 ^ 3, 3, 0, 0, 0⟩] = 2 ∧
    AllocateFairShare
      [⟨"a", 1000, 1024 ^ 3, -1, 0, 0, 0⟩, ⟨"b", 1000, 1024 ^ 3, 3, 0, 0, 0⟩]
      4000 (100 * 1024 ^ 3) = [⟨"a", 0⟩, ⟨"b", 6⟩] := by
  decide

/-- C7: Scenario B — fair share with redistribution.  HIGH is capped at
2 in the first pass; LOW gets 2 from its proportional share and 6 more
from the redistribution pass, which skips HIGH because it is already at
its configured cap. -/
theorem c7_fair_share_scenarioB :
    AllocateFairShare
      [⟨"high", 1000, 2 * 1024 ^ 3, 400, 0, 2, 2⟩,
       ⟨"low", 1000, 2 * 1024 ^ 3, 100, 0, 20, 20⟩]
      10000 (20 * 1024 ^ 3) = [⟨"high", 2⟩, ⟨"low", 8⟩] := by
  decide

/-- C10: with priorities −1 and 1 the zero-guard (which only remaps an
exact-zero priority) leaves both weights untouched and the total
priority weight of this non-empty input is 0, so the first-pass share
computation of `AllocateFairShare` divides by zero (a run-time panic in
Go; `Int.tdiv _ 0 = 0` in this model). -/
theorem c10_zero_total_weight :
    effectiveWeight (-1) = -1 ∧
    effectiveWeight 1 = 1 ∧
    totalPriorityWeight
      [⟨"a", 1000, 1024 ^ 3, -1, 0, 0, 0⟩, ⟨"b", 1000, 1024 ^ 3, 1, 0, 0, 0⟩] = 0 ∧
    ([⟨"a", 1000, 1024 ^ 3, -1, 0, 0, 0⟩, ⟨"b", 1000, 1024 ^ 3, 1, 0, 0, 0⟩] :
      List RunnerSetResources) ≠ [] := by
  decide

/-! ## Quantity parser (C5) and capacity calculator (C6) -/

/-- C5: the quantity parser tries bare-integer parsing first and returns
the integer unchanged; `"2"` as CPU yields 2 (not 2000), `"2000m"`
yields 2000, `"4Gi"` as memory yields 4 × 1024³ = 4294967296 bytes, and
a string matching neither form fails. -/
theorem c5_quantity_parse :
    (∀ (s : String) (n : Int) (isCPU : Bool), parseInt64 s = some n →
        parseResourceQuantityOrInt s isCPU = some n) ∧
    parseResourceQuantityOrInt "2" true = some 2 ∧
    parseResourceQuantityOrInt "2000m" true = some 2000 ∧
    parseResourceQuantityOrInt "4Gi" false = some 4294967296 ∧
    ((4 : Int) * 1024 ^ 3 = 4294967296) ∧
    (∀ (s : String) (isCPU : Bool), parseInt64 s = none → parseQuantityMilli s = none →
        parseResourceQuantityOrInt s isCPU = none) ∧
    parseResourceQuantityOrInt "not-a-number" true = none := by
  refine ⟨?_, by decide, by decide, by decide, by decide, ?_, by decide⟩
  · intro s n isCPU h
    unfold parseResourceQuantityOrInt
    rw [h]
  · intro s isCPU h1 h2
    unfold parseResourceQuantityOrInt
    rw [h1, h2]

/-- Witness for `c5_quantity_parse` at concrete strings. -/
theorem c5_witness :
    parseResourceQuantityOrInt "7" true = some 7 ∧
    parseResourceQuantityOrInt "zz" false = none :=
  ⟨c5_quantity_parse.1 "7" 7 true (by decide),
   c5_quantity_parse.2.2.2.2.2.1 "zz" false (by decide) (by decide)⟩

/-- C6: the capacity calculator computes
`available = max(total − used, 0) × (100 − buffer%) / 100` with
truncating division (first conjunct, for all inputs), and on Scenario E
(one ready node 10000m/20Gi, a workload pod 2000m/4Gi, a runner-labeled
pod 1000m/2Gi, 10% buffers) yields available (7200m, 15461882265 bytes)
with the runner pod excluded from `used` (used = 2000m/4Gi, not
3000m/6Gi). -/
theorem c6_capacity_scenarioE :
    (∀ (nodes : List NodeInfo) (pods : List PodInfo) (bc bm : Int),
      (Calculate nodes pods bc bm).availableCPUMillis =
        Int.tdiv (max ((Calculate nodes pods bc bm).totalCPUMillis -
          (Calculate nodes pods bc bm).usedCPUMillis) 0 * (100 - bc)) 100 ∧
      (Calculate nodes pods bc bm).availableMemoryBytes =
        Int.tdiv (max ((Calculate nodes pods bc bm).totalMemoryBytes -
          (Calculate nodes pods bc bm).usedMemoryBytes) 0 * (100 - bm)) 100) ∧
    Calculate [⟨[⟨"Ready", "True"⟩], 10000, 20 * 1024 ^ 3⟩]
      [⟨"Running", [], [⟨2000, 4 * 1024 ^ 3⟩]⟩,
       ⟨"Running", [("actions.github.com/scale-set-name", "rs")], [⟨1000, 2 * 1024 ^ 3⟩]⟩]
      10 10 =
      ⟨10000, 21474836480, 2000, 4294967296, 7200, 15461882265⟩ := by
  refine ⟨?_, by decide⟩
  intro nodes pods bc bm
  exact ⟨rfl, rfl⟩

/-! ## Min-runners extraction (C9) -/

/-- C9: the extractor's min-runners annotation handling (modelled from
the spec, see `ExtractRunnerSetResources`): when the annotation is
absent, a successful extraction has `minRunners = 0`; when it is present
but not a non-negative integer (and the set is otherwise enabled with a
well-formed priority), extraction fails with `InvalidMin`. -/
theorem c9_min_runners_extraction :
    (∀ (rs : AutoscalingRunnerSet) (r : RunnerSetResources),
        ExtractRunnerSetResources rs = .ok r →
        lookupAnnotation rs AnnotationMinRunners = none →
        r.minRunners = 0) ∧
    (∀ (rs : AutoscalingRunnerSet) (s : String),
        lookupAnnotation rs AnnotationEnabled = some "true" →
        (∀ pStr, lookupAnnotation rs AnnotationPriority = some pStr →
          parseInt64 pStr ≠ none) →
        lookupAnnotation rs AnnotationMinRunners = some s →
        parseMinRunners s = none →
        ExtractRunnerSetResources rs = .error .invalidMin) := by
  constructor
  · intro rs r hok habs
    unfold ExtractRunnerSetResources at hok
    repeat' split at hok
    all_goals simp_all
    all_goals (cases hok; rfl)
  · intro rs s hen hp hmin hbad
    unfold ExtractRunnerSetResources
    rw [hen]
    simp only [if_neg]
    repeat' split
    all_goals try simp_all
    all_goals (rename_i e heq; (repeat' split at heq) <;> simp_all)

/-- Witness for `c9_min_runners_extraction` at concrete runner sets. -/
theorem c9_witness :
    (⟨"t", 1000, 2048, 0, 0, 8, 8⟩ : RunnerSetResources).minRunners = 0 ∧
    ExtractRunnerSetResources
      ⟨"t", [(AnnotationEnabled, "true"), (AnnotationCPU, "1000"),
        (AnnotationMemory, "2048"), (AnnotationMinRunners, "abc")],
        some 8, [], 0⟩ = .error .invalidMin := by
  constructor
  · exact c9_min_runners_extraction.1
      ⟨"t", [(AnnotationEnabled, "true"), (AnnotationCPU, "1000"),
        (AnnotationMemory, "2048")], some 8, [], 0⟩
      ⟨"t", 1000, 2048, 0, 0, 8, 8⟩ (by decide) (by decide)
  · refine c9_min_runners_extraction.2
      ⟨"t", [(AnnotationEnabled, "true"), (AnnotationCPU, "1000"),
        (AnnotationMemory, "2048"), (AnnotationMinRunners, "abc")], some 8, [], 0⟩
      "abc" (by decide) ?_ (by decide) (by decide)
    intro pStr h
    rw [show lookupAnnotation
      ⟨"t", [(AnnotationEnabled, "true"), (AnnotationCPU, "1000"),
        (AnnotationMemory, "2048"), (AnnotationMinRunners, "abc")], some 8, [], 0⟩
      AnnotationPriority = none from by decide] at h
    cases h

/-! ## Reconciliation idempotence machinery (C8) -/

theorem extract_ok_fields (s : AutoscalingRunnerSet) (e : RunnerSetResources)
    (hok : ExtractRunnerSetResources s = .ok e) :
    e.name = s.name ∧ e.currentMax = s.maxRunners.getD 0 ∧
      e.configuredMax = s.maxRunners.getD 0 := by
  unfold ExtractRunnerSetResources at hok
  repeat' split at hok
  all_goals simp_all
  all_goals (cases hok; exact ⟨rfl, rfl, rfl⟩)

theorem lookupAnnotation_update (s : AutoscalingRunnerSet) (v : Option Int) (k : String) :
    lookupAnnotation { s with maxRunners := v } k = lookupAnnotation s k := rfl

theorem extract_update_maxRunners (s : AutoscalingRunnerSet) (v : Option Int) :
    ExtractRunnerSetResources { s with maxRunners := v } =
      (ExtractRunnerSetResources s).map
        (fun e => { e with currentMax := v.getD 0, configuredMax := v.getD 0 }) := by
  unfold ExtractRunnerSetResources
  simp only [lookupAnnotation_update]
  repeat' split
  all_goals simp_all [Except.map]

def capAfterPatch (patches : List (String × Int)) (e : RunnerSetResources) : Int :=
  match patches.find? (fun p => p.1 = e.name) with
  | some p => p.2
  | none => e.currentMax

theorem extractEnabled_applyPatches (sets : List AutoscalingRunnerSet)
    (P : List (String × Int)) :
    extractEnabled (applyPatches sets P) =
      (extractEnabled sets).map
        (fun e => { e with
          currentMax := capAfterPatch P e
          configuredMax := capAfterPatch P e }) := by
  induction sets with
  | nil => rfl
  | cons s rest ih =>
    unfold applyPatches extractEnabled at *
    simp only [List.map_cons, List.filterMap_cons]
    cases hE : ExtractRunnerSetResources s with
    | error err =>
      have h2 : ExtractRunnerSetResources (patchOne P s) = .error err := by
        unfold patchOne
        cases hf : P.find? (fun p => p.1 = s.name) with
        | some p => rw [extract_update_maxRunners s (some p.2), hE]; rfl
        | none => exact hE
      rw [h2]
      simpa [Except.toOption] using ih
    | ok e =>
      obtain ⟨hname, hcur, hcfg⟩ := extract_ok_fields s e hE
      have h2 : ExtractRunnerSetResources (patchOne P s) =
          .ok { e with
            currentMax := capAfterPatch P e
            configuredMax := capAfterPatch P e } := by
        unfold patchOne capAfterPatch
        rw [hname]
        cases hf : P.find? (fun p => p.1 = s.name) with
        | some p =>
          rw [extract_update_maxRunners s (some p.2), hE]
          simp [Except.map, hname]
        | none =>
          rw [hE]
          cases e
          simp_all
      rw [h2]
      simp only [Except.toOption, List.map_cons] at ih ⊢
      rw [ih]

theorem insertBy_map {β : Type} (f : α → β) (ltA : α → α → Bool) (ltB : β → β → Bool)
    (hcomm : ∀ a b, ltB (f a) (f b) = ltA a b) (a : α) (l : List α) :
    insertBy ltB (f a) (l.map f) = (insertBy ltA a l).map f := by
  induction l with
  | nil => rfl
  | cons b t ih =>
    simp only [List.map_cons, insertBy, hcomm]
    split
    · rw [ih]; rfl
    · rfl

theorem sortBy_map {β : Type} (f : α → β) (ltA : α → α → Bool) (ltB : β → β → Bool)
    (hcomm : ∀ a b, ltB (f a) (f b) = ltA a b) (l : List α) :
    sortBy ltB (l.map f) = (sortBy ltA l).map f := by
  induction l with
  | nil => rfl
  | cons a t ih =>
    simp only [List.map_cons, sortBy]
    rw [ih, insertBy_map f ltA ltB hcomm]

theorem allocLess_fields (f : RunnerSetResources → RunnerSetResources)
    (hp : ∀ e, (f e).priority = e.priority) (hn : ∀ e, (f e).name = e.name) :
    ∀ a b, allocLess (f a) (f b) = allocLess a b := by
  intro a b
  unfold allocLess
  rw [hp a, hp b, hn a, hn b]

theorem sortRunnerSets_map (f : RunnerSetResources → RunnerSetResources)
    (hp : ∀ e, (f e).priority = e.priority) (hn : ∀ e, (f e).name = e.name)
    (l : List RunnerSetResources) :
    sortRunnerSets (l.map f) = (sortRunnerSets l).map f :=
  sortBy_map f allocLess allocLess (allocLess_fields f hp hn) l

theorem allocStep_update_cap (rs : RunnerSetResources) (cpu mem : Int) :
    allocStep { rs with
      currentMax := allocStep rs cpu mem
      configuredMax := allocStep rs cpu mem } cpu mem = allocStep rs cpu mem := by
  generalize hA : allocStep rs cpu mem = A
  have hcalc : calculateMaxRunners { rs with currentMax := A, configuredMax := A } cpu mem
      = calculateMaxRunners rs cpu mem := rfl
  unfold allocStep at hA ⊢
  dsimp only at hA ⊢
  rw [hcalc]
  set fitted := calculateMaxRunners rs cpu mem with hf
  set promoted := if rs.minRunners > 0 ∧ fitted < rs.minRunners then rs.minRunners else fitted with hpm
  by_cases hcap : rs.configuredMax > 0 ∧ promoted > rs.configuredMax
  · rw [if_pos hcap] at hA
    rw [if_pos (by omega : A > 0 ∧ promoted > A)]
  · rw [if_neg hcap] at hA
    rw [if_neg (by omega : ¬(A > 0 ∧ promoted > A))]
    omega

theorem allocateLoop_self_caps (l : List RunnerSetResources) :
    ∀ (cpu mem : Int) (g : RunnerSetResources → Int),
      (∀ p ∈ l.zip (allocateLoop l cpu mem), g p.1 = p.2.maxRunners) →
      allocateLoop
        (l.map (fun e => { e with currentMax := g e, configuredMax := g e })) cpu mem
        = allocateLoop l cpu mem := by
  induction l with
  | nil => intro cpu mem g _; rfl
  | cons rs rest ih =>
    intro cpu mem g hg
    have hghead : g rs = allocStep rs cpu mem := by
      have hm : ((rs, (⟨rs.name, allocStep rs cpu mem⟩ : RunnerSetAllocation)) ∈
          (rs :: rest).zip (allocateLoop (rs :: rest) cpu mem)) := by
        rw [allocateLoop_cons, List.zip_cons_cons]
        exact List.mem_cons_self _ _
      exact hg _ hm
    rw [List.map_cons, allocateLoop_cons, allocateLoop_cons]
    have hstep : allocStep { rs with currentMax := g rs, configuredMax := g rs } cpu mem
        = allocStep rs cpu mem := by
      rw [hghead]
      exact allocStep_update_cap rs cpu mem
    have hname : ({ rs with currentMax := g rs, configuredMax := g rs } :
        RunnerSetResources).name = rs.name := rfl
    have hcpu : ({ rs with currentMax := g rs, configuredMax := g rs } :
        RunnerSetResources).cpuMillis = rs.cpuMillis := rfl
    have hmem : ({ rs with currentMax := g rs, configuredMax := g rs } :
        RunnerSetResources).memoryBytes = rs.memoryBytes := rfl
    rw [hstep, hname, hcpu, hmem]
    congr 1
    apply ih
    intro p hp
    apply hg
    rw [allocateLoop_cons, List.zip_cons_cons]
    exact List.mem_cons_of_mem _ hp
theorem extract_toOption_ok {s : AutoscalingRunnerSet} {e : RunnerSetResources}
    (h : (ExtractRunnerSetResources s).toOption = some e) :
    ExtractRunnerSetResources s = .ok e := by
  cases hE : ExtractRunnerSetResources s <;> rw [hE] at h <;>
    simp [Except.toOption] at h
  rw [h]

theorem extractEnabled_names_sublist (sets : List AutoscalingRunnerSet) :
    ((extractEnabled sets).map (fun e => e.name)).Sublist
      (sets.map (fun s => s.name)) := by
  induction sets with
  | nil => exact List.Sublist.refl _
  | cons s rest ih =>
    unfold extractEnabled at *
    rw [List.filterMap_cons, List.map_cons]
    cases hE : (ExtractRunnerSetResources s).toOption with
    | none => exact ih.cons _
    | some e =>
      rw [List.map_cons]
      have : e.name = s.name := (extract_ok_fields s e (extract_toOption_ok hE)).1
      rw [this]
      exact ih.cons₂ _

theorem find_of_mem_nodup {sets : List AutoscalingRunnerSet} {s : AutoscalingRunnerSet}
    (hmem : s ∈ sets) (hnd : (sets.map (fun x => x.name)).Nodup) :
    findRunnerSet sets s.name = some s := by
  induction sets with
  | nil => simp at hmem
  | cons a rest ih =>
    rw [List.map_cons, List.nodup_cons] at hnd
    rcases List.mem_cons.mp hmem with heq | htail
    · subst heq
      unfold findRunnerSet
      simp [List.find?_cons]
    · unfold findRunnerSet
      rw [List.find?_cons]
      have hne : a.name ≠ s.name := by
        intro h
        exact hnd.1 (h ▸ List.mem_map_of_mem (fun x => x.name) htail)
      simp only [hne, decide_eq_true_eq, if_neg]
      exact ih htail hnd.2

theorem patchOne_name (P : List (String × Int)) (rs : AutoscalingRunnerSet) :
    (patchOne P rs).name = rs.name := by
  unfold patchOne
  split <;> rfl

theorem patchOne_currentRunners (P : List (String × Int)) (rs : AutoscalingRunnerSet) :
    (patchOne P rs).currentRunners = rs.currentRunners := by
  unfold patchOne
  split <;> rfl

theorem patchOne_maxRunners (P : List (String × Int)) (rs : AutoscalingRunnerSet) :
    (patchOne P rs).maxRunners =
      match P.find? (fun p => p.1 = rs.name) with
      | some p => some p.2
      | none => rs.maxRunners := by
  unfold patchOne
  split <;> simp_all

theorem findRunnerSet_applyPatches (sets : List AutoscalingRunnerSet)
    (P : List (String × Int)) (name : String) :
    findRunnerSet (applyPatches sets P) name =
      (findRunnerSet sets name).map (patchOne P) := by
  induction sets with
  | nil => rfl
  | cons s rest ih =>
    unfold applyPatches findRunnerSet at *
    rw [List.map_cons, List.find?_cons, List.find?_cons, patchOne_name]
    by_cases h : s.name = name
    · simp [h]
    · simp only [h, decide_False]
      exact ih

theorem safetyFloor_of_le {a r : Int} (h : r ≤ a) : safetyFloor a r = a := by
  unfold safetyFloor
  split <;> omega

theorem applyAllocationsPatches_cons (sets : List AutoscalingRunnerSet)
    (a : RunnerSetAllocation) (rest : List RunnerSetAllocation) :
    applyAllocationsPatches sets (a :: rest) =
      match findRunnerSet sets a.name with
      | none => applyAllocationsPatches sets rest
      | some rs =>
        if rs.maxRunners.getD 0 = safetyFloor a.maxRunners rs.currentRunners then
          applyAllocationsPatches sets rest
        else (a.name, safetyFloor a.maxRunners rs.currentRunners) ::
          applyAllocationsPatches sets rest := rfl

theorem applyAllocationsPatches_names (sets : List AutoscalingRunnerSet)
    (allocs : List RunnerSetAllocation) :
    ∀ q ∈ applyAllocationsPatches sets allocs, q.1 ∈ allocs.map (fun a => a.name) := by
  induction allocs with
  | nil => intro q hq; simp [applyAllocationsPatches] at hq
  | cons a rest ih =>
    intro q hq
    rw [applyAllocationsPatches_cons] at hq
    rw [List.map_cons]
    cases hfind : findRunnerSet sets a.name with
    | none =>
      simp only [hfind] at hq
      exact List.mem_cons_of_mem _ (ih q hq)
    | some rs =>
      simp only [hfind] at hq
      split at hq
      · exact List.mem_cons_of_mem _ (ih q hq)
      · rcases List.mem_cons.mp hq with heq | htail
        · subst heq
          exact List.mem_cons_self _ _
        · exact List.mem_cons_of_mem _ (ih q htail)

theorem patches_find (sets : List AutoscalingRunnerSet)
    (allocs : List RunnerSetAllocation)
    (hnd : (allocs.map (fun a => a.name)).Nodup)
    (a : RunnerSetAllocation) (ha : a ∈ allocs) :
    (applyAllocationsPatches sets allocs).find? (fun p => p.1 = a.name) =
      match findRunnerSet sets a.name with
      | none => none
      | some s =>
        if s.maxRunners.getD 0 = safetyFloor a.maxRunners s.currentRunners then none
        else some (a.name, safetyFloor a.maxRunners s.currentRunners) := by
  induction allocs with
  | nil => simp at ha
  | cons a0 rest ih =>
    rw [List.map_cons, List.nodup_cons] at hnd
    rw [applyAllocationsPatches_cons]
    rcases List.mem_cons.mp ha with heq | htail
    · subst heq
      have hnone : (applyAllocationsPatches sets rest).find? (fun p => p.1 = a.name) = none := by
        apply List.find?_eq_none.mpr
        intro q hq
        simp only [decide_eq_true_eq]
        intro hq1
        exact hnd.1 (hq1 ▸ applyAllocationsPatches_names sets rest q hq)
      cases hfind : findRunnerSet sets a.name with
      | none => exact hnone
      | some s =>
        dsimp only
        by_cases hC : s.maxRunners.getD 0 = safetyFloor a.maxRunners s.currentRunners
        · rw [if_pos hC, if_pos hC]
          exact hnone
        · rw [if_neg hC, if_neg hC, List.find?_cons]
          simp
    · have hne : a0.name ≠ a.name := by
        intro h
        exact hnd.1 (h ▸ List.mem_map_of_mem (fun x => x.name) htail)
      cases hfind : findRunnerSet sets a0.name with
      | none => exact ih hnd.2 htail
      | some s =>
        dsimp only
        by_cases hC : s.maxRunners.getD 0 = safetyFloor a0.maxRunners s.currentRunners
        · rw [if_pos hC]
          exact ih hnd.2 htail
        · rw [if_neg hC, List.find?_cons]
          simp only [hne, decide_False]
          exact ih hnd.2 htail

theorem applyAllocationsPatches_eq_nil (sets : List AutoscalingRunnerSet)
    (allocs : List RunnerSetAllocation)
    (h : ∀ a ∈ allocs, ∀ s, findRunnerSet sets a.name = some s →
      s.maxRunners.getD 0 = safetyFloor a.maxRunners s.currentRunners) :
    applyAllocationsPatches sets allocs = [] := by
  induction allocs with
  | nil => rfl
  | cons a rest ih =>
    rw [applyAllocationsPatches_cons]
    cases hfind : findRunnerSet sets a.name with
    | none => exact ih (fun x hx => h x (List.mem_cons_of_mem _ hx))
    | some s =>
      dsimp only
      rw [if_pos (h a (List.mem_cons_self _ _) s hfind)]
      exact ih (fun x hx => h x (List.mem_cons_of_mem _ hx))

theorem applyAllocationsPatches_changes (sets : List AutoscalingRunnerSet)
    (allocs : List RunnerSetAllocation) (n : String) (v : Int)
    (hmem : (n, v) ∈ applyAllocationsPatches sets allocs) :
    ∃ s, findRunnerSet sets n = some s ∧ s.maxRunners.getD 0 ≠ v := by
  induction allocs with
  | nil => simp [applyAllocationsPatches] at hmem
  | cons a rest ih =>
    rw [applyAllocationsPatches_cons] at hmem
    cases hfind : findRunnerSet sets a.name with
    | none =>
      simp only [hfind] at hmem
      exact ih hmem
    | some rs =>
      simp only [hfind] at hmem
      split at hmem
      · exact ih hmem
      · rcases List.mem_cons.mp hmem with heq | htail
        · obtain ⟨h1, h2⟩ := Prod.mk.injEq .. |>.mp heq
          subst h1
          subst h2
          rename_i hne
          exact ⟨rs, hfind, hne⟩
        · exact ih htail

theorem allocate_fixpoint_after_patches (sets : List AutoscalingRunnerSet)
    (cpu mem : Int)
    (hnd : (sets.map (fun s => s.name)).Nodup)
    (hfl : ∀ a ∈ Allocate (extractEnabled sets) cpu mem, ∀ s,
      findRunnerSet sets a.name = some s → s.currentRunners ≤ a.maxRunners) :
    Allocate
      (extractEnabled (applyPatches sets (reconcilePatches sets cpu mem))) cpu mem
      = Allocate (extractEnabled sets) cpu mem := by
  have hEnames : ((extractEnabled sets).map (fun e => e.name)).Nodup :=
    (extractEnabled_names_sublist sets).nodup hnd
  have hsortednames :
      ((sortRunnerSets (extractEnabled sets)).map (fun e => e.name)).Nodup :=
    ((sortRunnerSets_perm (extractEnabled sets)).map (fun e => e.name)).nodup_iff.mpr hEnames
  have hAnodup : ((Allocate (extractEnabled sets) cpu mem).map (fun a => a.name)).Nodup := by
    unfold Allocate
    rw [allocateLoop_names _ cpu mem]
    exact hsortednames
  have hg : ∀ p ∈ (sortRunnerSets (extractEnabled sets)).zip
      (allocateLoop (sortRunnerSets (extractEnabled sets)) cpu mem),
      capAfterPatch (reconcilePatches sets cpu mem) p.1 = p.2.maxRunners := by
    intro p hp
    have he_sorted : p.1 ∈ sortRunnerSets (extractEnabled sets) := (List.of_mem_zip hp).1
    have hav_A : p.2 ∈ Allocate (extractEnabled sets) cpu mem := (List.of_mem_zip hp).2
    have hname_eq : p.2.name = p.1.name := allocateLoop_zip_names _ cpu mem p hp
    have he_E : p.1 ∈ extractEnabled sets := mem_sortBy.mp he_sorted
    obtain ⟨s, hs_mem, hs_ext⟩ := List.mem_filterMap.mp he_E
    have hok := extract_toOption_ok hs_ext
    obtain ⟨hn, hc, hcf⟩ := extract_ok_fields s p.1 hok
    have hfind_s : findRunnerSet sets p.1.name = some s := by
      rw [hn]
      exact find_of_mem_nodup hs_mem hnd
    have hfloor_av : s.currentRunners ≤ p.2.maxRunners := by
      apply hfl p.2 hav_A s
      rw [hname_eq]
      exact hfind_s
    have hsf : safetyFloor p.2.maxRunners s.currentRunners = p.2.maxRunners :=
      safetyFloor_of_le hfloor_av
    unfold capAfterPatch reconcilePatches
    rw [← hname_eq]
    rw [patches_find sets (Allocate (extractEnabled sets) cpu mem) hAnodup p.2 hav_A]
    rw [hname_eq, hfind_s]
    dsimp only
    rw [hsf]
    by_cases hC : s.maxRunners.getD 0 = p.2.maxRunners
    · rw [if_pos hC]
      dsimp only
      rw [hc, hC]
    · rw [if_neg hC]
  calc Allocate (extractEnabled (applyPatches sets (reconcilePatches sets cpu mem))) cpu mem
      = Allocate ((extractEnabled sets).map
          (fun e => { e with
            currentMax := capAfterPatch (reconcilePatches sets cpu mem) e
            configuredMax := capAfterPatch (reconcilePatches sets cpu mem) e })) cpu mem := by
        rw [extractEnabled_applyPatches]
    _ = Allocate (extractEnabled sets) cpu mem := by
        unfold Allocate
        rw [sortRunnerSets_map
          (fun e => { e with
            currentMax := capAfterPatch (reconcilePatches sets cpu mem) e
            configuredMax := capAfterPatch (reconcilePatches sets cpu mem) e })
          (fun e => rfl) (fun e => rfl)]
        exact allocateLoop_self_caps _ cpu mem _ hg

theorem second_run_no_patches (sets : List AutoscalingRunnerSet) (cpu mem : Int)
    (hnd : (sets.map (fun s => s.name)).Nodup)
    (hfl : ∀ a ∈ Allocate (extractEnabled sets) cpu mem, ∀ s,
      findRunnerSet sets a.name = some s → s.currentRunners ≤ a.maxRunners) :
    reconcilePatches (applyPatches sets (reconcilePatches sets cpu mem)) cpu mem = [] := by
  have hAnodup : ((Allocate (extractEnabled sets) cpu mem).map (fun a => a.name)).Nodup := by
    unfold Allocate
    rw [allocateLoop_names _ cpu mem]
    exact ((sortRunnerSets_perm (extractEnabled sets)).map (fun e => e.name)).nodup_iff.mpr
      ((extractEnabled_names_sublist sets).nodup hnd)
  show applyAllocationsPatches (applyPatches sets (reconcilePatches sets cpu mem))
      (Allocate (extractEnabled (applyPatches sets (reconcilePatches sets cpu mem))) cpu mem)
      = []
  rw [allocate_fixpoint_after_patches sets cpu mem hnd hfl]
  apply applyAllocationsPatches_eq_nil
  intro a ha s' hfind'
  rw [findRunnerSet_applyPatches] at hfind'
  cases hfs : findRunnerSet sets a.name with
  | none =>
    rw [hfs] at hfind'
    cases hfind'
  | some s =>
    rw [hfs] at hfind'
    simp only [Option.map_some'] at hfind'
    injection hfind' with h
    subst h
    have hsn : s.name = a.name := by
      unfold findRunnerSet at hfs
      have := List.find?_some hfs
      simpa using this
    have hfl_a : s.currentRunners ≤ a.maxRunners := hfl a ha s hfs
    have hsf : safetyFloor a.maxRunners s.currentRunners = a.maxRunners :=
      safetyFloor_of_le hfl_a
    rw [patchOne_currentRunners, patchOne_maxRunners, hsn, hsf]
    unfold reconcilePatches
    rw [patches_find sets (Allocate (extractEnabled sets) cpu mem) hAnodup a ha, hfs]
    dsimp only
    rw [hsf]
    by_cases hC : s.maxRunners.getD 0 = a.maxRunners
    · rw [if_pos hC]
      exact hC
    · rw [if_neg hC]
      rfl

/-- C8 (amended): per-set idempotence holds unconditionally — every
emitted patch changes the stored `maxRunners`, so a set whose current
value equals the computed final produces no patch.  The two-run property
holds whenever the safety floor does not bind, i.e. every allocation of
the first run is at least its set's currently-running count (and runner
set names are distinct): then the second run, on the state with only the
first run's patches applied, issues zero patch calls. -/
theorem c8_idempotence (sets : List AutoscalingRunnerSet) (cpu mem : Int)
    (hnd : (sets.map (fun s => s.name)).Nodup) :
    (∀ n v, (n, v) ∈ reconcilePatches sets cpu mem →
      ∃ s, findRunnerSet sets n = some s ∧ s.maxRunners.getD 0 ≠ v) ∧
    ((∀ a ∈ Allocate (extractEnabled sets) cpu mem, ∀ s,
        findRunnerSet sets a.name = some s → s.currentRunners ≤ a.maxRunners) →
      reconcilePatches (applyPatches sets (reconcilePatches sets cpu mem)) cpu mem = []) := by
  constructor
  · intro n v hmem
    exact applyAllocationsPatches_changes sets _ n v hmem
  · intro hfl
    exact second_run_no_patches sets cpu mem hnd hfl

/-- A runner set for the C8 counterexample: configured max 2 while 5
runners are already running. -/
def c8setA : AutoscalingRunnerSet :=
  ⟨"a", [(AnnotationEnabled, "true"), (AnnotationCPU, "1000"), (AnnotationMemory, "1"),
    (AnnotationPriority, "2")], some 2, [], 5⟩

/-- A lower-priority uncapped runner set for the C8 counterexample. -/
def c8setB : AutoscalingRunnerSet :=
  ⟨"b", [(AnnotationEnabled, "true"), (AnnotationCPU, "1000"), (AnnotationMemory, "1"),
    (AnnotationPriority, "1")], none, [], 0⟩

/-- C8 (counterexample): with set `a` (cap 2, 5 already running) and set
`b` (no cap), the first run patches a→5 and b→8; rerunning on the
patched but otherwise unchanged state patches b again (to 5), because
the safety floor raised `a`'s stored max, which the second run reads
back as a larger configured cap, shrinking `b`'s allocation.  So the
second run is NOT free of patch calls. -/
theorem c8_counterexample :
    reconcilePatches [c8setA, c8setB] 10000 1000000 = [("a", 5), ("b", 8)] ∧
    reconcilePatches
      (applyPatches [c8setA, c8setB] (reconcilePatches [c8setA, c8setB] 10000 1000000))
      10000 1000000 = [("b", 5)] ∧
    ([("b", 5)] : List (String × Int)) ≠ [] := by
  decide

/-- A runner set on which the two-run property does hold (floor does not
bind: 2 running, 5 allocated). -/
def c8setW : AutoscalingRunnerSet :=
  ⟨"w", [(AnnotationEnabled, "true"), (AnnotationCPU, "1000"), (AnnotationMemory, "1000")],
    none, [], 2⟩

/-- Witness for `c8_idempotence` at a concrete input. -/
theorem c8_witness :
    (∃ s, findRunnerSet [c8setW] "w" = some s ∧ s.maxRunners.getD 0 ≠ 5) ∧
    reconcilePatches
      (applyPatches [c8setW] (reconcilePatches [c8setW] 5000 5000)) 5000 5000 = [] := by
  constructor
  · exact (c8_idempotence [c8setW] 5000 5000 (by decide)).1 "w" 5 (by decide)
  · apply (c8_idempotence [c8setW] 5000 5000 (by decide)).2
    intro a ha s hs
    rw [show Allocate (extractEnabled [c8setW]) 5000 5000 = [⟨"w", 5⟩] from by decide] at ha
    rcases List.mem_singleton.mp ha with rfl
    rw [show findRunnerSet [c8setW] "w" = some c8setW from by decide] at hs
    injection hs with h
    subst h
    decide

end GhaAutoscaler
